import Mathlib

/-!
Verification of the simulation engine of the Calendar-Sync repository
(CPU-scheduling simulators and resource-synchronization simulators).

The Python source is shallowly embedded:
* `Process` mirrors `src/models/process.py` (one record per process; the
  mutable simulation fields are part of the record and updated functionally).
* Scheduler states (`FifoState`, `SrtfState`, `RRState`) mirror the scheduler
  classes; Python objects shared by reference between `processes`,
  `ready_queue`, `completed_processes` and `current_process` are represented
  by indices into the `processes` list, so aliasing is preserved.
* `Resource` mirrors `src/models/resource.py`; its `using_processes` dict and
  `process_queue` are association lists keyed by pid (Python keys processes
  by object identity, and the engines hold exactly one process object per
  pid, obtained from the pid-keyed `processes` dict).
* The synchronization engines mirror `base_sync.py`, `mutex_sync.py` and
  `semaphore_sync.py`.  The immutable fields of an `Action` object live in
  `SyncAction`; the single mutable field `state` lives in a parallel list
  `states`, indexed the same way (`Action` objects never change any other
  field after construction).
* Python `list.sort(key=...)` is a stable sort; it is embedded as a stable
  insertion sort `sortBy`.
-/

/-- Action kinds of `src/models/action.py` (`READ`/`WRITE`). -/
inductive ActType where
  | READ
  | WRITE
deriving Repr, DecidableEq

/-- Synchronization modes of `src/models/resource.py` (`'mutex'`/`'semaphore'`). -/
inductive SyncMode where
  | mutex
  | semaphore
deriving Repr, DecidableEq

/-- States of an `Action` (`PENDING`, `RUNNING`, `WAITING`, `COMPLETED`). -/
inductive AState where
  | PENDING
  | RUNNING
  | WAITING
  | COMPLETED
deriving Repr, DecidableEq

/-- States of a `Process` (`READY`, `RUNNING`, `WAITING`, `TERMINATED`). -/
inductive PState where
  | READY
  | RUNNING
  | WAITING
  | TERMINATED
deriving Repr, DecidableEq

/-- Stable insertion of `x` into `l`: `x` is placed before the first element
`y` with `lt y x = false`, so elements comparing equal keep their original
relative order, exactly like Python's stable `list.sort`. -/
def insSort (lt : α → α → Bool) (x : α) : List α → List α
  | [] => [x]
  | y :: ys => if lt y x then y :: insSort lt x ys else x :: y :: ys

/-- Stable sort by the strict comparison `lt`, embedding Python `list.sort`. -/
def sortBy (lt : α → α → Bool) : List α → List α
  | [] => []
  | x :: xs => insSort lt x (sortBy lt xs)

/-- Embedding of the `Process` class (`src/models/process.py`).  Static
attributes (`pid`, `burst_time`, `arrival_time`, `priority`) plus the mutable
simulation fields.  `turnaround_time` is an integer because Python computes it
by subtraction. -/
structure Process where
  pid : String
  burst_time : Nat
  arrival_time : Nat
  priority : Int
  remaining_time : Nat
  waiting_time : Nat
  turnaround_time : Int
  start_time : Option Nat
  finish_time : Option Nat
  state : PState
deriving Repr, DecidableEq

/-- `Process.__init__`: simulation fields at their initial values. -/
def Process.init (pid : String) (burst arrival : Nat) (prio : Int) : Process :=
  { pid := pid, burst_time := burst, arrival_time := arrival, priority := prio,
    remaining_time := burst, waiting_time := 0, turnaround_time := 0,
    start_time := none, finish_time := none, state := PState.READY }

/-- `Process.execute(time_quantum)`: run for at most `q` units, returning the
time actually executed together with the updated process.  The state is set to
`RUNNING` first and to `TERMINATED` when `remaining_time` reaches 0. -/
def Process.execute (p : Process) (q : Nat) : Nat × Process :=
  let p1 := if p.state ≠ PState.RUNNING then { p with state := PState.RUNNING } else p
  let e := min q p1.remaining_time
  let p2 := { p1 with remaining_time := p1.remaining_time - e }
  let p3 := if p2.remaining_time = 0 then { p2 with state := PState.TERMINATED } else p2
  (e, p3)

/-- `Process.wait()`: one unit of waiting, counted only in the `READY` or
`WAITING` states. -/
def Process.wait (p : Process) : Process :=
  if p.state = PState.READY ∨ p.state = PState.WAITING then
    { p with waiting_time := p.waiting_time + 1 }
  else p

/-- `Process.set_start_time(time)`: set once. -/
def Process.set_start_time (p : Process) (t : Nat) : Process :=
  if p.start_time = none then { p with start_time := some t } else p

/-- `Process.set_finish_time(time)`: records the finish time and computes
`turnaround_time = finish_time - arrival_time`. -/
def Process.set_finish_time (p : Process) (t : Nat) : Process :=
  { p with finish_time := some t, turnaround_time := (t : Int) - (p.arrival_time : Int) }

/-- `Process.reset()`. -/
def Process.reset (p : Process) : Process :=
  { p with
    remaining_time := p.burst_time
    waiting_time := 0
    turnaround_time := 0
    start_time := none
    finish_time := none
    state := PState.READY }

/-- Placeholder process used for out-of-range index lookups (never reached in
the modelled runs: every queue holds indices into the process list). -/
def Process.dflt : Process := Process.init "" 0 0 0

/-- Read the process at index `i`. -/
def procAt (ps : List Process) (i : Nat) : Process := ps.getD i Process.dflt

/-- Write the process at index `i`. -/
def setProcAt (ps : List Process) (i : Nat) (p : Process) : List Process := ps.set i p

/-- State of `FIFOScheduler` (`src/schedulers/fifo_scheduler.py` together with
the fields of `BaseScheduler`).  Queues hold indices into `processes`, the
single owned store, mirroring Python's by-reference sharing of process
objects. -/
structure FifoState where
  processes : List Process
  current_time : Nat
  execution_history : List (Nat × Nat × Nat)
  completed_processes : List Nat
  ready_queue : List Nat
  current_process : Option Nat
deriving Repr, DecidableEq

/-- Sort key of `FIFOScheduler.update_queues`: `(p.arrival_time,
self.processes.index(p))`, as a strict comparison on indices. -/
def fifoLtKey (ps : List Process) (i j : Nat) : Bool :=
  decide ((procAt ps i).arrival_time < (procAt ps j).arrival_time)
  || ((procAt ps i).arrival_time == (procAt ps j).arrival_time && decide (i < j))

/-- `FIFOScheduler.update_queues`: admit every arrived, unqueued, uncompleted
process into `ready_queue`, then stable-sort by `(arrival_time, index)`. -/
def fifoUpdateQueues (s : FifoState) : FifoState :=
  let admitted := (List.range s.processes.length).foldl
    (fun acc i =>
      if (procAt s.processes i).arrival_time ≤ s.current_time ∧ i ∉ acc ∧
          i ∉ s.completed_processes
      then acc ++ [i] else acc)
    s.ready_queue
  { s with ready_queue := sortBy (fifoLtKey s.processes) admitted }

/-- `FIFOScheduler.get_next_process`: pop the head of `ready_queue`. -/
def fifoGetNext (s : FifoState) : Option Nat × FifoState :=
  match s.ready_queue with
  | [] => (none, s)
  | i :: rest => (some i, { s with ready_queue := rest })

/-- `FIFOScheduler.execute_cycle`: one simulation cycle.  Returns `true` while
the simulation must continue. -/
def fifoExecuteCycle (s0 : FifoState) : Bool × FifoState :=
  let s := fifoUpdateQueues s0
  let cs :=
    match s.current_process with
    | none => fifoGetNext s
    | some i =>
      if (procAt s.processes i).state = PState.TERMINATED then fifoGetNext s
      else (some i, s)
  let cur := cs.1
  let s := { cs.2 with current_process := cur }
  match cur with
  | none =>
    if s.completed_processes.length < s.processes.length then
      (true, { s with current_time := s.current_time + 1 })
    else (false, s)
  | some ci =>
    let ps1 := s.ready_queue.foldl
      (fun ps j => if j ≠ ci then setProcAt ps j (procAt ps j).wait else ps) s.processes
    let ep := (procAt ps1 ci).execute 1
    let e := ep.1
    let ps2 := setProcAt ps1 ci ep.2
    let hist := s.execution_history ++ [(ci, s.current_time, s.current_time + e)]
    let ps3 :=
      if (procAt ps2 ci).start_time = none then
        setProcAt ps2 ci ((procAt ps2 ci).set_start_time s.current_time)
      else ps2
    let t2 := s.current_time + e
    if (procAt ps3 ci).state = PState.TERMINATED then
      let ps4 := setProcAt ps3 ci ((procAt ps3 ci).set_finish_time t2)
      let comp :=
        if ci ∈ s.completed_processes then s.completed_processes
        else s.completed_processes ++ [ci]
      (decide (comp.length < s.processes.length),
        { s with
          processes := ps4
          execution_history := hist
          current_time := t2
          completed_processes := comp })
    else
      (decide (s.completed_processes.length < s.processes.length),
        { s with
          processes := ps3
          execution_history := hist
          current_time := t2 })

/-- `BaseScheduler.reset`. -/
def fifoReset (s : FifoState) : FifoState :=
  { s with
    current_time := 0
    execution_history := []
    completed_processes := []
    ready_queue := []
    current_process := none
    processes := s.processes.map Process.reset }

/-- `BaseScheduler.load_processes` for FIFO, from `(pid, burst, arrival,
priority)` rows. -/
def fifoLoad (inp : List (String × Nat × Nat × Int)) : FifoState :=
  fifoReset
    { processes := inp.map (fun x => Process.init x.1 x.2.1 x.2.2.1 x.2.2.2),
      current_time := 0, execution_history := [], completed_processes := [],
      ready_queue := [], current_process := none }

/-- Result bundle of `BaseScheduler.get_results`; the two averages are exact
rationals guarded by the emptiness check of the source. -/
structure SchedResult where
  total_time : Nat
  processes : List Process
  execution_history : List (Nat × Nat × Nat)
  avg_waiting_time : ℚ
  avg_turnaround_time : ℚ
deriving Repr, DecidableEq

/-- `BaseScheduler.get_results`: totals and the division-guarded averages. -/
def getResults (processes : List Process) (total_time : Nat)
    (hist : List (Nat × Nat × Nat)) : SchedResult :=
  { total_time := total_time, processes := processes, execution_history := hist,
    avg_waiting_time :=
      if processes.length = 0 then 0
      else ((processes.map (fun p => (p.waiting_time : ℚ))).sum) / (processes.length : ℚ),
    avg_turnaround_time :=
      if processes.length = 0 then 0
      else ((processes.map (fun p => (p.turnaround_time : ℚ))).sum) / (processes.length : ℚ) }

/-- The `while self.execute_cycle(): pass` loop of
`BaseScheduler.run_simulation`, bounded by explicit fuel; `none` means the
fuel ran out before the simulation finished. -/
def fifoLoop : Nat → FifoState → Option FifoState
  | 0, _ => none
  | fuel + 1, s =>
    let r := fifoExecuteCycle s
    if r.1 then fifoLoop fuel r.2 else some r.2

/-- `BaseScheduler.run_simulation` for FIFO: reset, loop, collect results. -/
def fifoRunSim (fuel : Nat) (s : FifoState) : Option SchedResult :=
  (fifoLoop fuel (fifoReset s)).map
    (fun s1 => getResults s1.processes s1.current_time s1.execution_history)

/-- State of `SRTFScheduler` (`src/schedulers/srtf_scheduler.py`). -/
structure SrtfState where
  processes : List Process
  current_time : Nat
  execution_history : List (Nat × Nat × Nat)
  completed_processes : List Nat
  ready_queue : List Nat
  current_process : Option Nat
deriving Repr, DecidableEq

/-- `SRTFScheduler.update_queues`: admit arrivals (excluding the running
process), re-add the unfinished running process for comparison, then
stable-sort the ready queue by `remaining_time`. -/
def srtfUpdateQueues (s : SrtfState) : SrtfState :=
  let admitted := (List.range s.processes.length).foldl
    (fun acc i =>
      if (procAt s.processes i).arrival_time ≤ s.current_time ∧ i ∉ acc ∧
          i ∉ s.completed_processes ∧ s.current_process ≠ some i
      then acc ++ [i] else acc)
    s.ready_queue
  let withCur :=
    match s.current_process with
    | some ci =>
      if 0 < (procAt s.processes ci).remaining_time ∧ ci ∉ admitted then
        admitted ++ [ci]
      else admitted
    | none => admitted
  let sorted := sortBy
    (fun i j =>
      decide ((procAt s.processes i).remaining_time < (procAt s.processes j).remaining_time))
    withCur
  { s with ready_queue := sorted }

/-- `SRTFScheduler.execute_cycle`: the preemptive one-unit cycle. -/
def srtfExecuteCycle (s0 : SrtfState) : Bool × SrtfState :=
  let s := srtfUpdateQueues s0
  let cur := s.ready_queue.head?
  let s := { s with current_process := cur }
  match cur with
  | none =>
    if s.completed_processes.length < s.processes.length then
      (true, { s with current_time := s.current_time + 1 })
    else (false, s)
  | some ci =>
    let ps1 := s.ready_queue.foldl
      (fun ps j => if j ≠ ci then setProcAt ps j (procAt ps j).wait else ps) s.processes
    let rq := s.ready_queue.erase ci
    let ep := (procAt ps1 ci).execute 1
    let e := ep.1
    let ps2 := setProcAt ps1 ci ep.2
    let hist := s.execution_history ++ [(ci, s.current_time, s.current_time + e)]
    let ps3 :=
      if (procAt ps2 ci).start_time = none then
        setProcAt ps2 ci ((procAt ps2 ci).set_start_time s.current_time)
      else ps2
    let t2 := s.current_time + e
    if (procAt ps3 ci).state = PState.TERMINATED then
      let ps4 := setProcAt ps3 ci ((procAt ps3 ci).set_finish_time t2)
      let comp :=
        if ci ∈ s.completed_processes then s.completed_processes
        else s.completed_processes ++ [ci]
      (decide (comp.length < s.processes.length),
        { s with
          processes := ps4
          execution_history := hist
          current_time := t2
          ready_queue := rq
          completed_processes := comp })
    else
      (decide (s.completed_processes.length < s.processes.length),
        { s with
          processes := ps3
          execution_history := hist
          current_time := t2
          ready_queue := rq })

/-- `BaseScheduler.reset` for SRTF. -/
def srtfReset (s : SrtfState) : SrtfState :=
  { s with
    current_time := 0
    execution_history := []
    completed_processes := []
    ready_queue := []
    current_process := none
    processes := s.processes.map Process.reset }

/-- `BaseScheduler.load_processes` for SRTF. -/
def srtfLoad (inp : List (String × Nat × Nat × Int)) : SrtfState :=
  srtfReset
    { processes := inp.map (fun x => Process.init x.1 x.2.1 x.2.2.1 x.2.2.2),
      current_time := 0, execution_history := [], completed_processes := [],
      ready_queue := [], current_process := none }

/-- The bounded `run_simulation` loop for SRTF. -/
def srtfLoop : Nat → SrtfState → Option SrtfState
  | 0, _ => none
  | fuel + 1, s =>
    let r := srtfExecuteCycle s
    if r.1 then srtfLoop fuel r.2 else some r.2

/-- `BaseScheduler.run_simulation` for SRTF. -/
def srtfRunSim (fuel : Nat) (s : SrtfState) : Option SchedResult :=
  (srtfLoop fuel (srtfReset s)).map
    (fun s1 => getResults s1.processes s1.current_time s1.execution_history)

/-- Merge adjacent execution-history entries of the same process into maximal
intervals, turning the per-unit trace into the `[start, end)` slices the
specification describes. -/
def mergeHist : List (Nat × Nat × Nat) → List (Nat × Nat × Nat)
  | [] => []
  | e :: rest =>
    match mergeHist rest with
    | [] => [e]
    | f :: fs =>
      if e.1 = f.1 ∧ e.2.2 = f.2.1 then (e.1, e.2.1, f.2.2) :: fs
      else e :: f :: fs

/-- Execution trace of a finished run as `(pid, start, end)` slices. -/
def traceOf (r : SchedResult) : List (String × Nat × Nat) :=
  (mergeHist r.execution_history).map
    (fun t => ((procAt r.processes t.1).pid, t.2.1, t.2.2))

/-- State of `RoundRobinScheduler` (`src/schedulers/round_robin_scheduler.py`):
base-scheduler fields plus the circular `process_queue`, the configured
`quantum` and the running `quantum_remaining` countdown.  The quantum is an
integer because `set_quantum` stores `int(quantum)` unchecked. -/
structure RRState where
  processes : List Process
  current_time : Nat
  execution_history : List (Nat × Nat × Nat)
  completed_processes : List Nat
  ready_queue : List Nat
  current_process : Option Nat
  process_queue : List Nat
  quantum : Int
  quantum_remaining : Int
deriving Repr, DecidableEq

/-- `RoundRobinScheduler.set_quantum(quantum)`: stores `int(quantum)` with no
validation. -/
def rrSetQuantum (s : RRState) (q : Int) : RRState :=
  { s with quantum := q }

/-- Lexicographic code-point comparison of character lists, the order Python
uses on strings. -/
def charListLt : List Char → List Char → Bool
  | [], [] => false
  | [], _ :: _ => true
  | _ :: _, [] => false
  | a :: as, b :: bs =>
    decide (a.toNat < b.toNat) || (a.toNat == b.toNat && charListLt as bs)

/-- Python's `str < str` comparison. -/
def strLt (a b : String) : Bool := charListLt a.data b.data

/-- Sort key of `RoundRobinScheduler.update_queues` for newly arrived
processes: `(p.arrival_time, p.pid)` with Python's lexicographic string
order. -/
def rrLtKey (ps : List Process) (i j : Nat) : Bool :=
  decide ((procAt ps i).arrival_time < (procAt ps j).arrival_time)
  || ((procAt ps i).arrival_time == (procAt ps j).arrival_time &&
      strLt (procAt ps i).pid (procAt ps j).pid)

/-- `RoundRobinScheduler.update_queues`: collect arrivals not yet queued,
sort them by `(arrival_time, pid)`, append them to `process_queue` and (when
absent) to `ready_queue`. -/
def rrUpdateQueues (s : RRState) : RRState :=
  let nuevos := (List.range s.processes.length).foldl
    (fun acc i =>
      if (procAt s.processes i).arrival_time ≤ s.current_time ∧ i ∉ s.process_queue ∧
          i ∉ s.completed_processes ∧ s.current_process ≠ some i ∧ i ∉ acc
      then acc ++ [i] else acc)
    []
  let sorted := sortBy (rrLtKey s.processes) nuevos
  sorted.foldl
    (fun st i =>
      { st with
        process_queue := st.process_queue ++ [i]
        ready_queue := if i ∉ st.ready_queue then st.ready_queue ++ [i] else st.ready_queue })
    s

/-- `RoundRobinScheduler.get_next_process`: pop the head of the circular
queue; a popped process that already terminated yields `none`. -/
def rrGetNext (s : RRState) : Option Nat × RRState :=
  match s.process_queue with
  | [] => (none, s)
  | i :: rest =>
    if (procAt s.processes i).state ≠ PState.TERMINATED then
      (some i, { s with process_queue := rest })
    else (none, { s with process_queue := rest })

/-- `RoundRobinScheduler.execute_cycle`: one-unit execution with quantum
countdown; on quantum expiry the process is re-queued unless it is the only
ready process. -/
def rrExecuteCycle (s0 : RRState) : Bool × RRState :=
  let s := rrUpdateQueues s0
  let cs :=
    match s.current_process with
    | none =>
      let r := rrGetNext s
      (r.1, { r.2 with quantum_remaining := s.quantum })
    | some i => (some i, s)
  let cur := cs.1
  let s := { cs.2 with current_process := cur }
  match cur with
  | none =>
    if s.completed_processes.length < s.processes.length then
      (true, { s with current_time := s.current_time + 1 })
    else (false, s)
  | some ci =>
    let ps1 := s.ready_queue.foldl
      (fun ps j => if j ≠ ci then setProcAt ps j (procAt ps j).wait else ps) s.processes
    let ep := (procAt ps1 ci).execute 1
    let e := ep.1
    let ps2 := setProcAt ps1 ci ep.2
    let hist := s.execution_history ++ [(ci, s.current_time, s.current_time + e)]
    let ps3 :=
      if (procAt ps2 ci).start_time = none then
        setProcAt ps2 ci ((procAt ps2 ci).set_start_time s.current_time)
      else ps2
    let t2 := s.current_time + e
    let qr := s.quantum_remaining - 1
    let s := { s with
      processes := ps3
      execution_history := hist
      current_time := t2
      quantum_remaining := qr }
    if (procAt ps3 ci).state = PState.TERMINATED then
      let ps4 := setProcAt ps3 ci ((procAt ps3 ci).set_finish_time t2)
      let comp :=
        if ci ∈ s.completed_processes then s.completed_processes
        else s.completed_processes ++ [ci]
      let s := { s with
        processes := ps4
        completed_processes := comp
        ready_queue := s.ready_queue.erase ci
        current_process := none }
      (decide (s.completed_processes.length < s.processes.length), s)
    else if qr ≤ 0 then
      if 1 < s.ready_queue.length ∨
          (List.range s.processes.length).any
            (fun j => j ∉ s.completed_processes ∧ j ≠ ci ∧
              (procAt s.processes j).arrival_time ≤ s.current_time) then
        let s := { s with
          ready_queue := s.ready_queue.erase ci ++ [ci]
          process_queue := s.process_queue ++ [ci]
          current_process := none }
        (decide (s.completed_processes.length < s.processes.length), s)
      else
        (decide (s.completed_processes.length < s.processes.length),
          { s with quantum_remaining := s.quantum })
    else
      (decide (s.completed_processes.length < s.processes.length), s)

/-- `RoundRobinScheduler.reset`: base reset plus a fresh circular queue and
quantum countdown. -/
def rrReset (s : RRState) : RRState :=
  { s with
    current_time := 0
    execution_history := []
    completed_processes := []
    ready_queue := []
    current_process := none
    processes := s.processes.map Process.reset
    process_queue := []
    quantum_remaining := s.quantum }

/-- Load processes into a Round Robin scheduler configured with `quantum`. -/
def rrLoad (inp : List (String × Nat × Nat × Int)) (quantum : Int) : RRState :=
  rrReset
    { processes := inp.map (fun x => Process.init x.1 x.2.1 x.2.2.1 x.2.2.2),
      current_time := 0, execution_history := [], completed_processes := [],
      ready_queue := [], current_process := none, process_queue := [],
      quantum := quantum, quantum_remaining := quantum }

/-- The bounded `run_simulation` loop for Round Robin. -/
def rrLoop : Nat → RRState → Option RRState
  | 0, _ => none
  | fuel + 1, s =>
    let r := rrExecuteCycle s
    if r.1 then rrLoop fuel r.2 else some r.2

/-- `BaseScheduler.run_simulation` for Round Robin. -/
def rrRunSim (fuel : Nat) (s : RRState) : Option SchedResult :=
  (rrLoop fuel (rrReset s)).map
    (fun s1 => getResults s1.processes s1.current_time s1.execution_history)

/-- Embedding of the `Resource` class (`src/models/resource.py`).
`using_processes` is the pid-keyed insertion-ordered dict `{process: action}`;
`process_queue` is the FIFO list of `(process, action)` pairs. -/
structure Resource where
  name : String
  counter : Int
  current_counter : Int
  process_queue : List (String × ActType)
  using_processes : List (String × ActType)
  sync_mode : SyncMode
deriving Repr, DecidableEq

/-- `Resource.__init__`. -/
def Resource.init (name : String) (counter : Int) (mode : SyncMode) : Resource :=
  { name := name, counter := counter, current_counter := counter,
    process_queue := [], using_processes := [], sync_mode := mode }

/-- Python `dict[k] = v` on an insertion-ordered dict represented as an
association list: replace the value at an existing key in place, otherwise
append. -/
def dictInsert (k : String) (v : ActType) (l : List (String × ActType)) :
    List (String × ActType) :=
  if l.any (fun kv => kv.1 == k) then
    l.map (fun kv => if kv.1 == k then (k, v) else kv)
  else l ++ [(k, v)]

/-- Core of `Resource.is_available_for`, on the mode, counter and
`using_processes` of a resource (the Python method reads exactly these
fields).  The final Python `return False` is unreachable because both action
strings are covered. -/
def availCore (mode : SyncMode) (cc : Int) (using_processes : List (String × ActType)) :
    ActType → Bool
  | ActType.READ =>
    match mode with
    | SyncMode.mutex => decide (0 < cc)
    | SyncMode.semaphore => ! ((using_processes.map (fun kv => kv.2)).contains ActType.WRITE)
  | ActType.WRITE =>
    match mode with
    | SyncMode.mutex => decide (0 < cc)
    | SyncMode.semaphore => using_processes.isEmpty

/-- `Resource.is_available_for(action)`. -/
def Resource.is_available_for (r : Resource) (a : ActType) : Bool :=
  availCore r.sync_mode r.current_counter r.using_processes a

/-- `Resource.acquire(process, action)`: grant when available (decrementing
the counter in mutex mode), otherwise enqueue the pair once. -/
def Resource.acquire (r : Resource) (p : String) (a : ActType) : Resource × Bool :=
  if r.is_available_for a then
    ({ r with
        current_counter :=
          if r.sync_mode = SyncMode.mutex then r.current_counter - 1 else r.current_counter
        using_processes := dictInsert p a r.using_processes }, true)
  else
    ({ r with
        process_queue :=
          if r.process_queue.contains (p, a) then r.process_queue
          else r.process_queue ++ [(p, a)] },
      false)

/-- The waiter-granting loop of `Resource.release`: walk the queue in FIFO
order, grant every waiter whose action is currently available, stop after one
grant in mutex mode or after granting a WRITE; unavailable entries are
skipped, not blocking later entries.  Returns the final counter and
`using_processes`, the granted pairs (to delete from the queue) and the
granted pids (the function's `released_processes` result). -/
def releaseScan (mode : SyncMode) :
    List (String × ActType) → Int → List (String × ActType) →
      Int × List (String × ActType) × List (String × ActType) × List String
  | [], cc, usg => (cc, usg, [], [])
  | (w, a) :: rest, cc, usg =>
    if availCore mode cc usg a then
      let cc1 := if mode = SyncMode.mutex then cc - 1 else cc
      let usg1 := dictInsert w a usg
      if mode = SyncMode.mutex then (cc1, usg1, [(w, a)], [w])
      else if a = ActType.WRITE then (cc1, usg1, [(w, a)], [w])
      else
        let r := releaseScan mode rest cc1 usg1
        (r.1, r.2.1, (w, a) :: r.2.2.1, w :: r.2.2.2)
    else releaseScan mode rest cc usg

/-- `Resource.release(process)`: remove the holder, restore the counter in
mutex mode, then hand the resource to waiting processes via `releaseScan`;
granted pairs are removed from the queue.  Returns the list of released
(newly granted) pids. -/
def Resource.release (r : Resource) (p : String) : Resource × List String :=
  if r.using_processes.any (fun kv => kv.1 == p) then
    let usg0 := r.using_processes.filter (fun kv => ! (kv.1 == p))
    let cc0 :=
      if r.sync_mode = SyncMode.mutex then r.current_counter + 1 else r.current_counter
    let sc := releaseScan r.sync_mode r.process_queue cc0 usg0
    let queue1 := sc.2.2.1.foldl (fun q pr => q.erase pr) r.process_queue
    ({ r with current_counter := sc.1, using_processes := sc.2.1, process_queue := queue1 },
      sc.2.2.2)
  else (r, [])

/-- Immutable part of an `Action` object (`src/models/action.py`); the mutable
`state` field lives in the parallel `states` list of `SyncState`. -/
structure SyncAction where
  pid : String
  action_type : ActType
  resource_name : String
  cycle : Nat
deriving Repr, DecidableEq

/-- Placeholder action for out-of-range lookups. -/
def SyncAction.dflt : SyncAction :=
  { pid := "", action_type := ActType.READ, resource_name := "", cycle := 0 }

/-- State shared by `BaseSynchronization` and its two strategies
(`src/synchronization/base_sync.py`).  `acts` is the cycle-sorted action list
(`load_actions` sorts it), `states` the parallel list of mutable action
states; `pending_actions` and `completed_actions` hold indices into `acts`;
`processes` holds the loaded pids and `resources` the name-keyed resource
dict in insertion order. -/
structure SyncState where
  processes : List String
  resources : List Resource
  acts : List SyncAction
  states : List AState
  pending_actions : List Nat
  completed_actions : List Nat
  current_time : Nat
  execution_history : List (Nat × List (Nat × Bool))
deriving Repr, DecidableEq

/-- Static data of the action at index `i`. -/
def actAt (s : SyncState) (i : Nat) : SyncAction := s.acts.getD i SyncAction.dflt

/-- Mutable state of the action at index `i`. -/
def stateAt (s : SyncState) (i : Nat) : AState := s.states.getD i AState.PENDING

/-- Write the state of the action at index `i`. -/
def setActState (s : SyncState) (i : Nat) (st : AState) : SyncState :=
  { s with states := s.states.set i st }

/-- Replace a resource (Python mutates the object held in the name-keyed
dict). -/
def replaceRes (s : SyncState) (r2 : Resource) : SyncState :=
  { s with resources := s.resources.map (fun r => if r.name == r2.name then r2 else r) }

/-- `self.resources.get(name)`. -/
def findRes (s : SyncState) (n : String) : Option Resource :=
  s.resources.find? (fun r => r.name == n)

/-- `Action.is_due(current_cycle)`. -/
def isDue (s : SyncState) (i : Nat) : Bool :=
  decide ((actAt s i).cycle ≤ s.current_time) && (stateAt s i == AState.PENDING)

/-- `BaseSynchronization.get_due_actions`: the pending actions due now, in
pending order. -/
def getDue (s : SyncState) : List Nat := s.pending_actions.filter (isDue s)

/-- The shared grant-and-release step of both `process_action`
implementations: acquire the resource unless the process already holds it,
then release it immediately (an action's hold lasts exactly one cycle),
returning the updated resource and the released pids. -/
def grantStep (r : Resource) (p : String) (a : ActType) : Resource × List String :=
  let r1 := if r.using_processes.any (fun kv => kv.1 == p) then r else (r.acquire p a).1
  r1.release p

/-- Move an action to the completed list when its processing succeeded and
completed it — the `if success and action.state == "COMPLETED"` block used
after every `process_action` call in both engines' `execute_cycle`. -/
def completeMove (s : SyncState) (i : Nat) (succ : Bool) : SyncState :=
  if succ && (stateAt s i == AState.COMPLETED) then
    { s with
      pending_actions := s.pending_actions.erase i
      completed_actions :=
        if i ∈ s.completed_actions then s.completed_actions
        else s.completed_actions ++ [i] }
  else s

/-- `MutexSynchronization.process_action`: unknown resource or process is a
trivially completed no-op; otherwise grant-complete-release when the resource
is available (or already held by the process), else mark the action WAITING
and enqueue the process. -/
def mutexProcessAction (s : SyncState) (i : Nat) : Bool × SyncState :=
  let a := actAt s i
  match findRes s a.resource_name with
  | none => (true, setActState s i AState.COMPLETED)
  | some r =>
    if a.pid ∈ s.processes then
      if r.is_available_for a.action_type ||
          r.using_processes.any (fun kv => kv.1 == a.pid) then
        let s1 := setActState s i AState.COMPLETED
        let gr := grantStep r a.pid a.action_type
        (true, replaceRes s1 gr.1)
      else
        let s1 := setActState s i AState.WAITING
        let r1 := (r.acquire a.pid a.action_type).1
        (false, replaceRes s1 r1)
    else (true, setActState s i AState.COMPLETED)

/-- Body of the cascading wake-up loop of
`SemaphoreSynchronization.process_action`: complete the pending action `j`
when it belongs to released process `w` and is currently WAITING, moving it
to `completed_actions`.  The match is on the pid only — the resource of the
waiting action is not inspected. -/
def cascadeBody (w : String) (st : SyncState) (j : Nat) : SyncState :=
  if (actAt st j).pid == w && (stateAt st j == AState.WAITING) then
    let st1 := setActState st j AState.COMPLETED
    { st1 with
      pending_actions := st1.pending_actions.erase j
      completed_actions :=
        if j ∈ st1.completed_actions then st1.completed_actions
        else st1.completed_actions ++ [j] }
  else st

/-- One released process's pass of the cascading wake-up, folded over the
snapshot of `pending_actions` taken at the start of the pass. -/
def cascadeStep (s : SyncState) (w : String) : SyncState :=
  s.pending_actions.foldl (cascadeBody w) s

/-- Cascading wake-up over all released processes. -/
def cascade (s : SyncState) (released : List String) : SyncState :=
  released.foldl cascadeStep s

/-- `SemaphoreSynchronization.process_action`: like the mutex one, plus the
cascading wake-up of the released processes' waiting actions. -/
def semProcessAction (s : SyncState) (i : Nat) : Bool × SyncState :=
  let a := actAt s i
  match findRes s a.resource_name with
  | none => (true, setActState s i AState.COMPLETED)
  | some r =>
    if a.pid ∈ s.processes then
      if r.is_available_for a.action_type ||
          r.using_processes.any (fun kv => kv.1 == a.pid) then
        let s1 := setActState s i AState.COMPLETED
        let gr := grantStep r a.pid a.action_type
        let s2 := replaceRes s1 gr.1
        (true, cascade s2 gr.2)
      else
        let s1 := setActState s i AState.WAITING
        let r1 := (r.acquire a.pid a.action_type).1
        (false, replaceRes s1 r1)
    else (true, setActState s i AState.COMPLETED)

/-- One step of the due-action loop shared by both engines' `execute_cycle`. -/
def dueStep (pa : SyncState → Nat → Bool × SyncState)
    (acc : SyncState × List (Nat × Bool)) (i : Nat) : SyncState × List (Nat × Bool) :=
  let r := pa acc.1 i
  (completeMove r.2 i r.1, acc.2 ++ [(i, r.1)])

/-- The due-action phase: process every currently due action in pending
order, logging each attempt. -/
def duePhase (pa : SyncState → Nat → Bool × SyncState) (s : SyncState) :
    SyncState × List (Nat × Bool) :=
  (getDue s).foldl (dueStep pa) (s, [])

/-- The WAITING actions among `pending_actions`, in pending order. -/
def waitingList (s : SyncState) : List Nat :=
  s.pending_actions.filter (fun i => stateAt s i == AState.WAITING)

/-- The WAITING actions stable-sorted by their `cycle` attribute (oldest
first), as both engines' `execute_cycle` computes them. -/
def sortedWaiting (s : SyncState) : List Nat :=
  sortBy (fun i j => decide ((actAt s i).cycle < (actAt s j).cycle)) (waitingList s)

/-- The waiting-action service loop of `MutexSynchronization.execute_cycle`:
walk the sorted waiting actions and service at most one per resource,
tracking the processed resources. -/
def mutexWaitScan :
    List Nat → List String → SyncState → List (Nat × Bool) →
      SyncState × List (Nat × Bool)
  | [], _, s, log => (s, log)
  | i :: rest, procd, s, log =>
    let rn := (actAt s i).resource_name
    if rn ∈ procd then mutexWaitScan rest procd s log
    else
      let r := mutexProcessAction s i
      mutexWaitScan rest (procd ++ [rn]) (completeMove r.2 i r.1) (log ++ [(i, r.1)])

/-- The waiting phase of `MutexSynchronization.execute_cycle`. -/
def mutexWaitPhase (s : SyncState) : SyncState × List (Nat × Bool) :=
  mutexWaitScan (sortedWaiting s) [] s []

/-- `MutexSynchronization.execute_cycle`: due phase, waiting phase (one per
resource, oldest first), history entry, time advance. -/
def mutexExecuteCycle (s : SyncState) : SyncState :=
  let d := duePhase mutexProcessAction s
  let w := mutexWaitPhase d.1
  { w.1 with
    execution_history := w.1.execution_history ++ [(w.1.current_time, d.2 ++ w.2)]
    current_time := w.1.current_time + 1 }

/-- The READ service loop of `SemaphoreSynchronization.execute_cycle`:
multiple reads per resource are allowed; a resource already processed for
WRITE is skipped, and a read is attempted only when the resource is currently
available for READ. -/
def semReadScan :
    List Nat → List (String × ActType) → SyncState → List (Nat × Bool) →
      SyncState × List (String × ActType) × List (Nat × Bool)
  | [], procd, s, log => (s, procd, log)
  | i :: rest, procd, s, log =>
    let rn := (actAt s i).resource_name
    match findRes s rn with
    | none => semReadScan rest procd s log
    | some r =>
      if List.lookup rn procd == some ActType.WRITE then semReadScan rest procd s log
      else if r.is_available_for ActType.READ then
        let pr := semProcessAction s i
        let s2 := completeMove pr.2 i pr.1
        let procd1 :=
          if procd.any (fun kv => kv.1 == rn) then procd else procd ++ [(rn, ActType.READ)]
        semReadScan rest procd1 s2 (log ++ [(i, pr.1)])
      else semReadScan rest procd s log

/-- The WRITE service loop of `SemaphoreSynchronization.execute_cycle`: one
write per not-yet-processed resource. -/
def semWriteScan :
    List Nat → List (String × ActType) → SyncState → List (Nat × Bool) →
      SyncState × List (Nat × Bool)
  | [], _, s, log => (s, log)
  | i :: rest, procd, s, log =>
    let rn := (actAt s i).resource_name
    if procd.any (fun kv => kv.1 == rn) then semWriteScan rest procd s log
    else
      let pr := semProcessAction s i
      semWriteScan rest (dictInsert rn ActType.WRITE procd) (completeMove pr.2 i pr.1)
        (log ++ [(i, pr.1)])

/-- The waiting phase of `SemaphoreSynchronization.execute_cycle`: reads
first, then writes, sharing the processed-resource map. -/
def semWaitPhase (s : SyncState) : SyncState × List (Nat × Bool) :=
  let sorted := sortedWaiting s
  let reads := sorted.filter (fun i => (actAt s i).action_type == ActType.READ)
  let writes := sorted.filter (fun i => (actAt s i).action_type == ActType.WRITE)
  let rs := semReadScan reads [] s []
  let ws := semWriteScan writes rs.2.1 rs.1 rs.2.2
  ws

/-- `SemaphoreSynchronization.execute_cycle`. -/
def semExecuteCycle (s : SyncState) : SyncState :=
  let d := duePhase semProcessAction s
  let w := semWaitPhase d.1
  { w.1 with
    execution_history := w.1.execution_history ++ [(w.1.current_time, d.2 ++ w.2)]
    current_time := w.1.current_time + 1 }

/-- Python `{r.name: r}` dict building: replace the value at an existing key
in place, otherwise append. -/
def resUpd (acc : List Resource) (r : Resource) : List Resource :=
  if acc.any (fun q => q.name == r.name) then
    acc.map (fun q => if q.name == r.name then r else q)
  else acc ++ [r]

/-- The loaded-and-reset state of a synchronization engine:
`load_processes` keys processes by pid, `load_resources` builds fresh
resources of the given mode from `(name, counter)` rows, `load_actions` sorts
the actions by cycle and copies them into `pending_actions`. -/
def mkSyncState (pids : List String) (resIn : List (String × Int)) (mode : SyncMode)
    (actsIn : List SyncAction) : SyncState :=
  let acts := sortBy (fun a b => decide (a.cycle < b.cycle)) actsIn
  { processes := pids,
    resources := resIn.foldl (fun acc nc => resUpd acc (Resource.init nc.1 nc.2 mode)) [],
    acts := acts,
    states := acts.map (fun _ => AState.PENDING),
    pending_actions := List.range acts.length,
    completed_actions := [], current_time := 0, execution_history := [] }

/-- Iterate an engine's `execute_cycle` for `n` cycles. -/
def iterCycles (step : SyncState → SyncState) : Nat → SyncState → SyncState
  | 0, s => s
  | n + 1, s => iterCycles step n (step s)

/-- `BaseSynchronization.run_simulation`'s loop: run cycles while pending
actions remain, up to `max_cycles`. -/
def syncRunLoop (step : SyncState → SyncState) : Nat → SyncState → SyncState
  | 0, s => s
  | n + 1, s =>
    if s.pending_actions.isEmpty then s else syncRunLoop step n (step s)



/-- Convenience constructor matching `Action.__init__`. -/
def mkAct (p : String) (t : ActType) (r : String) (c : Nat) : SyncAction :=
  { pid := p, action_type := t, resource_name := r, cycle := c }

/-- Placeholder resource for out-of-range lookups in closed statements. -/
def Resource.dflt : Resource := Resource.init "" 0 SyncMode.mutex

/-- Per-resource invariant that characterises every state reachable by the
synchronization engines: a hold lasts only within a single `process_action`
call, so between calls nobody occupies the resource, the counter is full,
and (except for a mutex resource of non-positive counter, whose requests all
queue up for ever) the queue is empty. -/
def ResInv (r : Resource) : Prop :=
  r.using_processes = [] ∧ r.current_counter = r.counter ∧
    ((r.sync_mode = SyncMode.semaphore ∨ 0 < r.counter) → r.process_queue = [])

/-- `ResInv` for every loaded resource. -/
def AllResInv (s : SyncState) : Prop := ∀ r ∈ s.resources, ResInv r

/-- The indices serviced by the mutex waiting-phase scan: the first
occurrence of every resource name not yet in `procd`. -/
def selectFirst (s : SyncState) : List String → List Nat → List Nat
  | _, [] => []
  | procd, i :: rest =>
    if (actAt s i).resource_name ∈ procd then selectFirst s procd rest
    else i :: selectFirst s (procd ++ [(actAt s i).resource_name]) rest

/-- Input of the FIFO counterexample run: P1 (burst 3, arrival 0) and
P2 (burst 2, arrival 1). -/
def c1input : List (String × Nat × Nat × Int) := [("P1", 3, 0, 0), ("P2", 2, 1, 0)]

/-- Input of the SRTF preemption scenario: P1 (burst 5, arrival 0) and
P2 (burst 2, arrival 2). -/
def c6input : List (String × Nat × Nat × Int) := [("P1", 5, 0, 0), ("P2", 2, 2, 0)]

/-- Input of the Round Robin scenario: P1 (burst 5, arrival 0) and
P2 (burst 3, arrival 0). -/
def c7input : List (String × Nat × Nat × Int) := [("P1", 5, 0, 0), ("P2", 3, 0, 0)]

/-- Mutex engine state: resource R1 (counter 1), P1 READ at cycle 0 and
P2 WRITE at cycle 2. -/
def c2state : SyncState :=
  mkSyncState ["P1", "P2"] [("R1", 1)] SyncMode.mutex
    [mkAct "P1" ActType.READ "R1" 0, mkAct "P2" ActType.WRITE "R1" 2]

/-- Semaphore engine state: resource R1 (counter 2), P1 READ at cycle 0,
P2 WRITE at cycle 1. -/
def c3state : SyncState :=
  mkSyncState ["P1", "P2"] [("R1", 2)] SyncMode.semaphore
    [mkAct "P1" ActType.READ "R1" 0, mkAct "P2" ActType.WRITE "R1" 1]

/-- Mutex engine state after two cycles on a zero-counter resource, so both
actions are WAITING and the waiting-service phase has real work: R1 has
counter 0, P1 READ at cycle 0, P2 READ at cycle 1. -/
def c5state : SyncState :=
  iterCycles mutexExecuteCycle 2
    (mkSyncState ["P1", "P2"] [("R1", 0)] SyncMode.mutex
      [mkAct "P1" ActType.READ "R1" 0, mkAct "P2" ActType.READ "R1" 1])

/-- A semaphore-engine state in which P1 holds R1 with one queued waiter
(P2, READ) while P2 also has a WAITING action on the unrelated resource R2,
which is held by P3.  Processing P1's due action releases R1, grants P2, and
lets the cascade complete P2's waiting actions. -/
def c4resR1 : Resource :=
  { name := "R1", counter := 1, current_counter := 1,
    process_queue := [("P2", ActType.READ)],
    using_processes := [("P1", ActType.WRITE)],
    sync_mode := SyncMode.semaphore }

/-- The unrelated resource R2 of the cascade scenario, held by P3 with P2
queued for WRITE. -/
def c4resR2 : Resource :=
  { name := "R2", counter := 1, current_counter := 1,
    process_queue := [("P2", ActType.WRITE)],
    using_processes := [("P3", ActType.WRITE)],
    sync_mode := SyncMode.semaphore }

/-- The full cascade scenario state: action 0 is P1's due WRITE on R1,
action 1 is P2's WAITING READ on R1, action 2 is P2's WAITING WRITE on R2. -/
def c4state : SyncState :=
  { processes := ["P1", "P2", "P3"], resources := [c4resR1, c4resR2],
    acts := [mkAct "P1" ActType.WRITE "R1" 0, mkAct "P2" ActType.READ "R1" 0,
             mkAct "P2" ActType.WRITE "R2" 0],
    states := [AState.PENDING, AState.WAITING, AState.WAITING],
    pending_actions := [0, 1, 2], completed_actions := [], current_time := 1,
    execution_history := [] }

/-- A state whose single action names a resource that was never loaded. -/
def c8state : SyncState :=
  mkSyncState ["P1"] [("R1", 1)] SyncMode.mutex [mkAct "P1" ActType.READ "RX" 0]

/-! ### Helper lemmas about the stable sort -/

theorem insSort_perm (lt : α → α → Bool) (x : α) (l : List α) :
    (insSort lt x l).Perm (x :: l) := by
  induction l with
  | nil => simp [insSort]
  | cons y ys ih =>
    simp only [insSort]
    by_cases h : lt y x = true
    · simp only [h, if_pos]
      exact ((ih.cons y).trans (List.Perm.swap x y ys))
    · simp [h]

theorem sortBy_perm (lt : α → α → Bool) (l : List α) :
    (sortBy lt l).Perm l := by
  induction l with
  | nil => simp [sortBy]
  | cons x xs ih =>
    exact (insSort_perm lt x (sortBy lt xs)).trans (ih.cons x)

theorem mem_insSort (lt : α → α → Bool) (x a : α) (l : List α) :
    a ∈ insSort lt x l ↔ a = x ∨ a ∈ l := by
  constructor
  · intro h
    have := (insSort_perm lt x l).mem_iff.mp h
    simpa using this
  · intro h
    apply (insSort_perm lt x l).mem_iff.mpr
    simpa using h

theorem mem_sortBy (lt : α → α → Bool) (a : α) (l : List α) :
    a ∈ sortBy lt l ↔ a ∈ l :=
  (sortBy_perm lt l).mem_iff

theorem pairwise_insSort (lt : α → α → Bool) (le : α → α → Prop)
    (htr : ∀ a b c, le a b → le b c → le a c)
    (h1 : ∀ a b, lt a b = true → le a b)
    (h2 : ∀ a b, lt a b = false → le b a)
    (x : α) (l : List α) (hl : l.Pairwise le) :
    (insSort lt x l).Pairwise le := by
  induction l with
  | nil => simp [insSort]
  | cons y ys ih =>
    rcases List.pairwise_cons.mp hl with ⟨hy, hys⟩
    simp only [insSort]
    by_cases h : lt y x = true
    · simp only [h, if_pos]
      apply List.pairwise_cons.mpr
      refine ⟨?_, ih hys⟩
      intro a ha
      rcases (mem_insSort lt x a ys).mp ha with rfl | ha
      · exact h1 _ _ h
      · exact hy a ha
    · have hx : le x y := h2 _ _ (by simpa using h)
      rw [if_neg h]
      apply List.pairwise_cons.mpr
      constructor
      · intro a ha
        rcases ha with _ | ha
        · exact hx
        · exact htr x y a hx (hy a (by assumption))
      · exact hl

theorem pairwise_sortBy (lt : α → α → Bool) (le : α → α → Prop)
    (htr : ∀ a b c, le a b → le b c → le a c)
    (h1 : ∀ a b, lt a b = true → le a b)
    (h2 : ∀ a b, lt a b = false → le b a)
    (l : List α) : (sortBy lt l).Pairwise le := by
  induction l with
  | nil => simp [sortBy]
  | cons x xs ih =>
    exact pairwise_insSort lt le htr h1 h2 x (sortBy lt xs) ih

/-! ### Helper lemmas about action-state updates -/

theorem stateAt_setActState_self (s : SyncState) (i : Nat) (st : AState)
    (h : i < s.states.length) : stateAt (setActState s i st) i = st := by
  simp [stateAt, setActState, List.getD, List.getElem?_set_self, h]

theorem stateAt_setActState_other (s : SyncState) (i j : Nat) (st : AState)
    (h : j ≠ i) : stateAt (setActState s i st) j = stateAt s j := by
  simp [stateAt, setActState, List.getD, List.getElem?_set_ne (by omega : i ≠ j)]

/-! ### Claim theorems: concrete scheduler scenarios -/

/-- C6: under SRTF, for exactly P1 (arrival 0, burst 5) and P2 (arrival 2,
burst 2), the execution trace shows P1 over `[0,2)`, P2 over `[2,4)` and P1
over `[4,7)`. -/
theorem srtf_preemption_trace :
    (srtfRunSim 20 (srtfLoad c6input)).map traceOf =
      some [("P1", 0, 2), ("P2", 2, 4), ("P1", 4, 7)] := by decide

/-- C7 counterexample: under Round Robin with quantum 2, for exactly
P1 (arrival 0, burst 5) and P2 (arrival 0, burst 3), the trace claimed by the
specification — ending with P1 over `[7,9)` — is not the one the code
produces: P1 has only one unit of burst left for its final slice. -/
theorem rr_quantum2_trace_counterexample :
    (rrRunSim 30 (rrLoad c7input 2)).map traceOf ≠
      some [("P1", 0, 2), ("P2", 2, 4), ("P1", 4, 6), ("P2", 6, 7), ("P1", 7, 9)] := by
  decide

/-- C7 amended: the Round Robin trace for that input is P1 `[0,2)`,
P2 `[2,4)`, P1 `[4,6)`, P2 `[6,7)`, P1 `[7,8)` — the final slice is one unit,
ending at time 8. -/
theorem rr_quantum2_trace :
    (rrRunSim 30 (rrLoad c7input 2)).map traceOf =
      some [("P1", 0, 2), ("P2", 2, 4), ("P1", 4, 6), ("P2", 6, 7), ("P1", 7, 8)] := by
  decide

/-- C9 counterexample: `set_quantum(-1)` on a scheduler whose quantum is 2
stores `-1` instead of silently retaining the prior value 2. -/
theorem set_quantum_rejects_counterexample :
    (rrSetQuantum (rrLoad [] 2) (-1)).quantum = -1 ∧ ¬ ((-1 : Int) = 2) := by
  exact ⟨rfl, by decide⟩

/-- C9 amended: `set_quantum(q)` stores `q` unconditionally for every integer
`q`, positive or not; no validation occurs in the scheduler (the GUI caller
is the place that filters non-positive input). -/
theorem set_quantum_always_sets :
    ∀ (s : RRState) (q : Int), (rrSetQuantum s q).quantum = q := by
  intro s q
  rfl

/-- C10: running the scheduler on an empty process list terminates after a
single cycle and yields total time 0 and both averages 0 — the divisions of
`get_results` are guarded by the emptiness check, so no division by zero
occurs. -/
theorem empty_process_list_run :
    (fifoRunSim 1 (fifoLoad [])).map
      (fun r => (r.total_time, r.avg_waiting_time, r.avg_turnaround_time)) =
      some (0, 0, 0) := by rfl

/-- C1 (code-bug evidence): running FIFO on P1 (burst 3, arrival 0) and
P2 (burst 2, arrival 1), P2 ends with waiting 3, turnaround 4, burst 2 and
finish time 5: `turnaround_time = finish_time - arrival_time` holds, but
`turnaround_time = waiting_time + burst_time` fails (4 ≠ 5).  The extra
waiting unit accrues during the cycle in which the already-TERMINATED P1 is
re-selected for a zero-length execution, because `FIFOScheduler.update_queues`
re-admits the running process into the ready queue. -/
theorem fifo_turnaround_metrics_violation :
    ((fifoRunSim 12 (fifoLoad c1input)).map
      (fun r => ((procAt r.processes 1).pid, (procAt r.processes 1).waiting_time,
        (procAt r.processes 1).turnaround_time, (procAt r.processes 1).burst_time,
        (procAt r.processes 1).finish_time, (procAt r.processes 1).arrival_time)) =
      some ("P2", (3 : Nat), (4 : Int), (2 : Nat), some (5 : Nat), (1 : Nat))) ∧
    ¬ ((4 : Int) = (3 : Nat) + (2 : Nat)) := by
  exact ⟨by rfl, by decide⟩

theorem setActState_resources (s : SyncState) (i : Nat) (st : AState) :
    (setActState s i st).resources = s.resources := rfl

/-- C8: an action whose `resource_name` matches no loaded resource, or whose
`pid` matches no loaded process, is marked COMPLETED and reported successful
by `process_action` in both strategies, and no resource state is mutated. -/
theorem unknown_reference_completes_without_mutation :
    ∀ (s : SyncState) (i : Nat),
      i < s.states.length →
      (findRes s (actAt s i).resource_name = none ∨ (actAt s i).pid ∉ s.processes) →
      (mutexProcessAction s i).1 = true ∧
      stateAt (mutexProcessAction s i).2 i = AState.COMPLETED ∧
      (mutexProcessAction s i).2.resources = s.resources ∧
      (semProcessAction s i).1 = true ∧
      stateAt (semProcessAction s i).2 i = AState.COMPLETED ∧
      (semProcessAction s i).2.resources = s.resources := by
  intro s i hb hcase
  cases hf : findRes s (actAt s i).resource_name with
  | none =>
    refine ⟨?_, ?_, ?_, ?_, ?_, ?_⟩ <;>
      simp only [mutexProcessAction, semProcessAction, hf, setActState_resources,
        stateAt_setActState_self s i _ hb]
  | some r =>
    have hmem : (actAt s i).pid ∉ s.processes := by
      rcases hcase with hnone | hm
      · rw [hf] at hnone
        exact absurd hnone (by simp)
      · exact hm
    refine ⟨?_, ?_, ?_, ?_, ?_, ?_⟩ <;>
      simp only [mutexProcessAction, semProcessAction, hf, if_neg hmem,
        setActState_resources, stateAt_setActState_self s i _ hb]

/-- C8 witness: in `c8state` the single action names the unknown resource
`RX`; both strategies complete it successfully and leave the resources
untouched. -/
theorem unknown_reference_witness :
    (mutexProcessAction c8state 0).1 = true ∧
    stateAt (mutexProcessAction c8state 0).2 0 = AState.COMPLETED ∧
    (mutexProcessAction c8state 0).2.resources = c8state.resources ∧
    (semProcessAction c8state 0).1 = true ∧
    stateAt (semProcessAction c8state 0).2 0 = AState.COMPLETED ∧
    (semProcessAction c8state 0).2.resources = c8state.resources :=
  unknown_reference_completes_without_mutation c8state 0 (by decide) (Or.inl (by decide))

/-! ### Invariant proofs for the synchronization engines (C2, C3)

Every reachable engine state satisfies `ResInv` for each resource: a hold
lasts only within one `process_action` call, so between calls the
`using_processes` dict is empty and the counter is full. -/

theorem resInv_init (n : String) (c : Int) (m : SyncMode) : ResInv (Resource.init n c m) := by
  refine ⟨rfl, rfl, fun _ => rfl⟩

theorem grantStep_inv (r : Resource) (p : String) (a : ActType)
    (h : ResInv r) (hav : r.is_available_for a = true) :
    ResInv (grantStep r p a).1 ∧ (grantStep r p a).2 = [] := by
  obtain ⟨hu, hc, hq⟩ := h
  have hqe : r.process_queue = [] := by
    cases hm : r.sync_mode with
    | semaphore => exact hq (Or.inl hm)
    | mutex =>
      refine hq (Or.inr ?_)
      rw [← hc]
      cases a <;>
        simpa [Resource.is_available_for, availCore, hm] using hav
  cases hm : r.sync_mode with
  | mutex =>
    constructor
    · refine ⟨?_, ?_, ?_⟩ <;>
        simp [grantStep, hu, Resource.acquire, hav, Resource.release, dictInsert, hqe,
          releaseScan, hm, hc]
    · simp [grantStep, hu, Resource.acquire, hav, Resource.release, dictInsert, hqe,
        releaseScan, hm]
  | semaphore =>
    constructor
    · refine ⟨?_, ?_, ?_⟩ <;>
        simp [grantStep, hu, Resource.acquire, hav, Resource.release, dictInsert, hqe,
          releaseScan, hm, hc]
    · simp [grantStep, hu, Resource.acquire, hav, Resource.release, dictInsert, hqe,
        releaseScan, hm]

theorem acquire_fail_inv (r : Resource) (p : String) (a : ActType)
    (h : ResInv r) (hav : r.is_available_for a = false) :
    ResInv (r.acquire p a).1 := by
  obtain ⟨hu, hc, hq⟩ := h
  refine ⟨?_, ?_, ?_⟩
  · simpa [Resource.acquire, hav] using hu
  · simpa [Resource.acquire, hav] using hc
  · intro hcl
    exfalso
    simp [Resource.acquire, hav] at hcl
    rcases hcl with hsem | hpos
    · cases a <;> simp [Resource.is_available_for, availCore, hsem, hu] at hav
    · cases hm : r.sync_mode with
      | semaphore =>
        cases a <;> simp [Resource.is_available_for, availCore, hm, hu] at hav
      | mutex =>
        cases a <;>
          simp [Resource.is_available_for, availCore, hm, hc, hpos] at hav

theorem completeMove_resources (s : SyncState) (i : Nat) (b : Bool) :
    (completeMove s i b).resources = s.resources := by
  unfold completeMove
  split <;> rfl

theorem allResInv_of_resources_eq {s1 s2 : SyncState}
    (he : s1.resources = s2.resources) (h : AllResInv s2) : AllResInv s1 := by
  intro r hr
  exact h r (he ▸ hr)

theorem replaceRes_inv {s : SyncState} {r2 : Resource}
    (h : AllResInv s) (h2 : ResInv r2) : AllResInv (replaceRes s r2) := by
  intro r hr
  simp only [replaceRes, List.mem_map] at hr
  obtain ⟨q, hq, rfl⟩ := hr
  split
  · exact h2
  · exact h q hq

theorem mutexProcessAction_inv (s : SyncState) (i : Nat) (h : AllResInv s) :
    AllResInv (mutexProcessAction s i).2 := by
  cases hf : findRes s (actAt s i).resource_name with
  | none =>
    simp only [mutexProcessAction, hf]
    exact allResInv_of_resources_eq rfl h
  | some r =>
    have hr : r ∈ s.resources := by
      have := List.mem_of_find?_eq_some hf
      exact this
    have hinv := h r hr
    have hany : r.using_processes.any (fun kv => kv.1 == (actAt s i).pid) = false := by
      rw [hinv.1]
      rfl
    simp only [mutexProcessAction, hf]
    by_cases hmem : (actAt s i).pid ∈ s.processes
    · rw [if_pos hmem]
      by_cases hav : r.is_available_for (actAt s i).action_type = true
      · rw [if_pos (by simp [hav])]
        have hg := grantStep_inv r (actAt s i).pid (actAt s i).action_type hinv hav
        exact replaceRes_inv (allResInv_of_resources_eq (setActState_resources s i _) h) hg.1
      · rw [if_neg (by simp [hany]; simpa using hav)]
        have ha := acquire_fail_inv r (actAt s i).pid (actAt s i).action_type hinv
          (by simpa using hav)
        exact replaceRes_inv (allResInv_of_resources_eq (setActState_resources s i _) h) ha
    · rw [if_neg hmem]
      exact allResInv_of_resources_eq rfl h

theorem cascadeStep_resources (s : SyncState) (w : String) :
    (cascadeStep s w).resources = s.resources := by
  unfold cascadeStep
  generalize s.pending_actions = l
  induction l generalizing s with
  | nil => rfl
  | cons j rest ih =>
    simp only [List.foldl_cons]
    rw [ih]
    unfold cascadeBody
    split <;> rfl

theorem cascade_resources (s : SyncState) (rel : List String) :
    (cascade s rel).resources = s.resources := by
  unfold cascade
  induction rel generalizing s with
  | nil => rfl
  | cons w ws ih =>
    simp only [List.foldl_cons]
    rw [ih, cascadeStep_resources]

theorem semProcessAction_inv (s : SyncState) (i : Nat) (h : AllResInv s) :
    AllResInv (semProcessAction s i).2 := by
  cases hf : findRes s (actAt s i).resource_name with
  | none =>
    simp only [semProcessAction, hf]
    exact allResInv_of_resources_eq rfl h
  | some r =>
    have hr : r ∈ s.resources := List.mem_of_find?_eq_some hf
    have hinv := h r hr
    have hany : r.using_processes.any (fun kv => kv.1 == (actAt s i).pid) = false := by
      rw [hinv.1]
      rfl
    simp only [semProcessAction, hf]
    by_cases hmem : (actAt s i).pid ∈ s.processes
    · rw [if_pos hmem]
      by_cases hav : r.is_available_for (actAt s i).action_type = true
      · rw [if_pos (by simp [hav])]
        have hg := grantStep_inv r (actAt s i).pid (actAt s i).action_type hinv hav
        refine allResInv_of_resources_eq (cascade_resources _ _) ?_
        exact replaceRes_inv (allResInv_of_resources_eq (setActState_resources s i _) h) hg.1
      · rw [if_neg (by simp [hany]; simpa using hav)]
        have ha := acquire_fail_inv r (actAt s i).pid (actAt s i).action_type hinv
          (by simpa using hav)
        exact replaceRes_inv (allResInv_of_resources_eq (setActState_resources s i _) h) ha
    · rw [if_neg hmem]
      exact allResInv_of_resources_eq rfl h

theorem duePhase_inv (pa : SyncState → Nat → Bool × SyncState)
    (hpa : ∀ s i, AllResInv s → AllResInv (pa s i).2)
    (s : SyncState) (h : AllResInv s) : AllResInv (duePhase pa s).1 := by
  unfold duePhase
  generalize getDue s = l
  have : ∀ (l : List Nat) (acc : SyncState × List (Nat × Bool)), AllResInv acc.1 →
      AllResInv (l.foldl (dueStep pa) acc).1 := by
    intro l
    induction l with
    | nil => intro acc hacc; exact hacc
    | cons j rest ih =>
      intro acc hacc
      simp only [List.foldl_cons]
      apply ih
      exact allResInv_of_resources_eq (completeMove_resources _ _ _) (hpa _ _ hacc)
  exact this l (s, []) h

theorem mutexWaitScan_inv :
    ∀ (l : List Nat) (procd : List String) (s : SyncState) (log : List (Nat × Bool)),
      AllResInv s → AllResInv (mutexWaitScan l procd s log).1 := by
  intro l
  induction l with
  | nil => intro procd s log h; exact h
  | cons i rest ih =>
    intro procd s log h
    simp only [mutexWaitScan]
    split
    · exact ih _ _ _ h
    · exact ih _ _ _
        (allResInv_of_resources_eq (completeMove_resources _ _ _) (mutexProcessAction_inv _ _ h))

theorem mutexExecuteCycle_inv (s : SyncState) (h : AllResInv s) :
    AllResInv (mutexExecuteCycle s) := by
  unfold mutexExecuteCycle mutexWaitPhase
  refine allResInv_of_resources_eq rfl ?_
  exact mutexWaitScan_inv _ _ _ _ (duePhase_inv _ mutexProcessAction_inv s h)

theorem semReadScan_inv :
    ∀ (l : List Nat) (procd : List (String × ActType)) (s : SyncState)
      (log : List (Nat × Bool)),
      AllResInv s → AllResInv (semReadScan l procd s log).1 := by
  intro l
  induction l with
  | nil => intro procd s log h; exact h
  | cons i rest ih =>
    intro procd s log h
    simp only [semReadScan]
    split
    · exact ih _ _ _ h
    · split
      · exact ih _ _ _ h
      · split
        · exact ih _ _ _
            (allResInv_of_resources_eq (completeMove_resources _ _ _)
              (semProcessAction_inv _ _ h))
        · exact ih _ _ _ h

theorem semWriteScan_inv :
    ∀ (l : List Nat) (procd : List (String × ActType)) (s : SyncState)
      (log : List (Nat × Bool)),
      AllResInv s → AllResInv (semWriteScan l procd s log).1 := by
  intro l
  induction l with
  | nil => intro procd s log h; exact h
  | cons i rest ih =>
    intro procd s log h
    simp only [semWriteScan]
    split
    · exact ih _ _ _ h
    · exact ih _ _ _
        (allResInv_of_resources_eq (completeMove_resources _ _ _)
          (semProcessAction_inv _ _ h))

theorem semExecuteCycle_inv (s : SyncState) (h : AllResInv s) :
    AllResInv (semExecuteCycle s) := by
  unfold semExecuteCycle semWaitPhase
  refine allResInv_of_resources_eq rfl ?_
  exact semWriteScan_inv _ _ _ _
    (semReadScan_inv _ _ _ _ (duePhase_inv _ semProcessAction_inv s h))

theorem iterCycles_inv (step : SyncState → SyncState)
    (hstep : ∀ s, AllResInv s → AllResInv (step s)) :
    ∀ (n : Nat) (s : SyncState), AllResInv s → AllResInv (iterCycles step n s) := by
  intro n
  induction n with
  | zero => intro s h; exact h
  | succ m ih =>
    intro s h
    exact ih _ (hstep s h)

theorem mkSyncState_inv (pids : List String) (resIn : List (String × Int))
    (mode : SyncMode) (actsIn : List SyncAction) :
    AllResInv (mkSyncState pids resIn mode actsIn) := by
  unfold AllResInv mkSyncState
  simp only
  have : ∀ (l : List (String × Int)) (acc : List Resource), (∀ r ∈ acc, ResInv r) →
      ∀ r ∈ l.foldl (fun acc nc => resUpd acc (Resource.init nc.1 nc.2 mode)) acc, ResInv r := by
    intro l
    induction l with
    | nil => intro acc hacc; exact hacc
    | cons nc rest ih =>
      intro acc hacc
      simp only [List.foldl_cons]
      apply ih
      intro r hr
      unfold resUpd at hr
      split at hr
      · simp only [List.mem_map] at hr
        obtain ⟨q, hq, rfl⟩ := hr
        split
        · exact resInv_init _ _ _
        · exact hacc q hq
      · rcases List.mem_append.mp hr with hq | hq
        · exact hacc r hq
        · cases hq with
          | head => exact resInv_init _ _ _
          | tail _ h0 => cases h0
  intro r hr
  exact this resIn [] (by intro r hr; cases hr) r hr

/-- C2: in every run of the mutex synchronization engine on mutex-mode
resources, after any number of cycles every resource has
`|using_processes| <= 1`. -/
theorem mutex_mutual_exclusion :
    ∀ (pids : List String) (resIn : List (String × Int)) (actsIn : List SyncAction)
      (n : Nat),
      ∀ r ∈ (iterCycles mutexExecuteCycle n
          (mkSyncState pids resIn SyncMode.mutex actsIn)).resources,
        r.using_processes.length ≤ 1 := by
  intro pids resIn actsIn n r hr
  have h := iterCycles_inv mutexExecuteCycle mutexExecuteCycle_inv n _
    (mkSyncState_inv pids resIn SyncMode.mutex actsIn) r hr
  rw [h.1]
  decide

/-- C2 witness: the spec section-8 end-to-end scenario (R1 counter 1, P1 READ
at 0, P2 WRITE at 2) after three cycles. -/
theorem mutex_mutual_exclusion_witness :
    ((iterCycles mutexExecuteCycle 3 c2state).resources.getD 0
      Resource.dflt).using_processes.length ≤ 1 :=
  mutex_mutual_exclusion ["P1", "P2"] [("R1", 1)]
    [mkAct "P1" ActType.READ "R1" 0, mkAct "P2" ActType.WRITE "R1" 2] 3 _ (by decide)

/-- C3: in every run of the semaphore synchronization engine on
semaphore-mode resources, after any number of cycles, every resource's
`using_processes` either has size exactly 1 or contains no WRITE entry — so a
non-empty mapping containing a WRITE has size 1. -/
theorem semaphore_writer_exclusive :
    ∀ (pids : List String) (resIn : List (String × Int)) (actsIn : List SyncAction)
      (n : Nat),
      ∀ r ∈ (iterCycles semExecuteCycle n
          (mkSyncState pids resIn SyncMode.semaphore actsIn)).resources,
        r.using_processes.length = 1 ∨
          ∀ pa ∈ r.using_processes, pa.2 ≠ ActType.WRITE := by
  intro pids resIn actsIn n r hr
  have h := iterCycles_inv semExecuteCycle semExecuteCycle_inv n _
    (mkSyncState_inv pids resIn SyncMode.semaphore actsIn) r hr
  right
  intro pa hpa
  rw [h.1] at hpa
  cases hpa

/-- C3 witness: a two-action READ/WRITE scenario on a counter-2 semaphore
resource after two cycles. -/
theorem semaphore_writer_exclusive_witness :
    ((iterCycles semExecuteCycle 2 c3state).resources.getD 0
        Resource.dflt).using_processes.length = 1 ∨
      ∀ pa ∈ ((iterCycles semExecuteCycle 2 c3state).resources.getD 0
        Resource.dflt).using_processes, pa.2 ≠ ActType.WRITE :=
  semaphore_writer_exclusive ["P1", "P2"] [("R1", 2)]
    [mkAct "P1" ActType.READ "R1" 0, mkAct "P2" ActType.WRITE "R1" 1] 2 _ (by decide)

/-! ### Waiting-service discipline of the mutex engine (C5) -/

theorem actAt_congr {s s0 : SyncState} (h : s.acts = s0.acts) (i : Nat) :
    actAt s i = actAt s0 i := by
  simp [actAt, h]

theorem setActState_acts (s : SyncState) (i : Nat) (st : AState) :
    (setActState s i st).acts = s.acts := rfl

theorem completeMove_acts (s : SyncState) (i : Nat) (b : Bool) :
    (completeMove s i b).acts = s.acts := by
  unfold completeMove
  split <;> rfl

theorem mutexProcessAction_acts (s : SyncState) (i : Nat) :
    ((mutexProcessAction s i).2).acts = s.acts := by
  cases hf : findRes s (actAt s i).resource_name with
  | none =>
    simp only [mutexProcessAction, hf]
    rfl
  | some r =>
    simp only [mutexProcessAction, hf]
    split
    · split <;> rfl
    · rfl

theorem mutexWaitScan_log_fst :
    ∀ (l : List Nat) (procd : List String) (s s0 : SyncState) (log : List (Nat × Bool)),
      s.acts = s0.acts →
      ((mutexWaitScan l procd s log).2).map Prod.fst =
        log.map Prod.fst ++ selectFirst s0 procd l := by
  intro l
  induction l with
  | nil =>
    intro procd s s0 log h
    simp [mutexWaitScan, selectFirst]
  | cons i rest ih =>
    intro procd s s0 log h
    simp only [mutexWaitScan, selectFirst, actAt_congr h]
    split
    · exact ih _ _ _ _ h
    · rw [ih _ _ s0 _ (by rw [completeMove_acts, mutexProcessAction_acts]; exact h)]
      simp

theorem selectFirst_not_in (s : SyncState) :
    ∀ (l : List Nat) (procd : List String),
      ∀ i ∈ selectFirst s procd l, (actAt s i).resource_name ∉ procd := by
  intro l
  induction l with
  | nil => intro procd i hi; cases hi
  | cons j rest ih =>
    intro procd i hi
    simp only [selectFirst] at hi
    split at hi
    · exact ih _ i hi
    · cases hi with
      | head => assumption
      | tail _ hi2 =>
        have := ih _ i hi2
        intro hc
        exact this (List.mem_append.mpr (Or.inl hc))

theorem selectFirst_pairwise (s : SyncState) :
    ∀ (l : List Nat) (procd : List String),
      (selectFirst s procd l).Pairwise
        (fun i j => (actAt s i).resource_name ≠ (actAt s j).resource_name) := by
  intro l
  induction l with
  | nil => intro procd; simp [selectFirst]
  | cons j rest ih =>
    intro procd
    simp only [selectFirst]
    split
    · exact ih _
    · refine List.pairwise_cons.mpr ⟨?_, ih _⟩
      intro i hi
      have := selectFirst_not_in s rest _ i hi
      intro hc
      exact this (List.mem_append.mpr (Or.inr (by simp [hc])))

theorem selectFirst_min (s : SyncState) :
    ∀ (l : List Nat) (procd : List String),
      l.Pairwise (fun i j => (actAt s i).cycle ≤ (actAt s j).cycle) →
      ∀ i ∈ selectFirst s procd l, ∀ j ∈ l,
        (actAt s j).resource_name = (actAt s i).resource_name →
        (actAt s i).cycle ≤ (actAt s j).cycle := by
  intro l
  induction l with
  | nil => intro procd _ i hi; cases hi
  | cons k rest ih =>
    intro procd hp i hi j hj hres
    rcases List.pairwise_cons.mp hp with ⟨hk, hrest⟩
    simp only [selectFirst] at hi
    split at hi
    · -- k's resource already processed: i comes from the tail
      cases hj with
      | head =>
        -- j = k: but i's resource is not in procd while k's is, contradiction
        exfalso
        have hnotin := selectFirst_not_in s rest procd i hi
        rw [← hres] at hnotin
        exact hnotin (by assumption)
      | tail _ hj2 => exact ih _ hrest i hi j hj2 hres
    · cases hi with
      | head =>
        cases hj with
        | head => exact le_refl _
        | tail _ hj2 => exact hk j hj2
      | tail _ hi2 =>
        cases hj with
        | head =>
          exfalso
          have hnotin := selectFirst_not_in s rest _ i hi2
          rw [← hres] at hnotin
          exact hnotin (List.mem_append.mpr (Or.inr (by simp)))
        | tail _ hj2 => exact ih _ hrest i hi2 j hj2 hres

theorem sortedWaiting_pairwise (s : SyncState) :
    (sortedWaiting s).Pairwise (fun i j => (actAt s i).cycle ≤ (actAt s j).cycle) := by
  unfold sortedWaiting
  apply pairwise_sortBy
  · intro a b c h1 h2; omega
  · intro a b h; simp at h; omega
  · intro a b h; simp at h; omega

/-- C5: in every cycle of the mutex engine, among the queued WAITING actions
the waiting-service phase services at most one action per resource — the
serviced entries have pairwise distinct resource names — and every serviced
action has the oldest `cycle` value among the WAITING actions of its
resource. -/
theorem mutex_waiting_service_discipline (s : SyncState) :
    ((mutexWaitPhase s).2.map Prod.fst).Pairwise
      (fun i j => (actAt s i).resource_name ≠ (actAt s j).resource_name) ∧
    ∀ e ∈ (mutexWaitPhase s).2, ∀ j ∈ waitingList s,
      (actAt s j).resource_name = (actAt s e.1).resource_name →
      (actAt s e.1).cycle ≤ (actAt s j).cycle := by
  have hlog : ((mutexWaitPhase s).2).map Prod.fst = selectFirst s [] (sortedWaiting s) := by
    unfold mutexWaitPhase
    rw [mutexWaitScan_log_fst _ _ s s _ rfl]
    simp
  constructor
  · rw [hlog]
    exact selectFirst_pairwise s _ _
  · intro e he j hj hres
    have he1 : e.1 ∈ selectFirst s [] (sortedWaiting s) := by
      rw [← hlog]
      exact List.mem_map_of_mem Prod.fst he
    have hj2 : j ∈ sortedWaiting s := by
      unfold sortedWaiting
      exact (mem_sortBy _ _ _).mpr hj
    exact selectFirst_min s (sortedWaiting s) [] (sortedWaiting_pairwise s) e.1 he1 j hj2 hres

/-- C5 witness: in `c5state` both actions are WAITING on the zero-counter
resource R1; the serviced one is action 0, whose cycle 0 is the oldest. -/
theorem mutex_waiting_service_witness :
    (actAt c5state 0).cycle ≤ (actAt c5state 1).cycle :=
  (mutex_waiting_service_discipline c5state).2 (0, false) (by decide) 1 (by decide) (by decide)

/-! ### Cascading wake-up characterization of the semaphore engine (C4) -/

theorem stateAt_waiting_bound {s : SyncState} {j : Nat}
    (h : stateAt s j = AState.WAITING) : j < s.states.length := by
  by_contra hc
  rw [stateAt, List.getD_eq_default] at h
  · cases h
  · omega

theorem cascadeBody_cond_iff (w : String) (st : SyncState) (j : Nat) :
    ((actAt st j).pid == w && (stateAt st j == AState.WAITING)) = true ↔
      stateAt st j = AState.WAITING ∧ (actAt st j).pid = w := by
  constructor
  · intro h
    simp only [Bool.and_eq_true, beq_iff_eq] at h
    exact ⟨h.2, h.1⟩
  · intro ⟨h1, h2⟩
    simp [h1, h2]

theorem cascadeBody_acts (w : String) (st : SyncState) (j : Nat) :
    (cascadeBody w st j).acts = st.acts := by
  unfold cascadeBody
  split <;> rfl

theorem cascadeBody_states_length (w : String) (st : SyncState) (j : Nat) :
    (cascadeBody w st j).states.length = st.states.length := by
  unfold cascadeBody
  split
  · simp [setActState]
  · rfl

theorem cascadeBody_state_other (w : String) (st : SyncState) (j j' : Nat) (h : j' ≠ j) :
    stateAt (cascadeBody w st j) j' = stateAt st j' := by
  unfold cascadeBody
  split
  · exact stateAt_setActState_other st j j' _ h
  · rfl

theorem cascadeBody_state_self (w : String) (st : SyncState) (j : Nat) :
    stateAt (cascadeBody w st j) j =
      if stateAt st j = AState.WAITING ∧ (actAt st j).pid = w
      then AState.COMPLETED else stateAt st j := by
  by_cases hc : stateAt st j = AState.WAITING ∧ (actAt st j).pid = w
  · rw [if_pos hc]
    unfold cascadeBody
    rw [if_pos ((cascadeBody_cond_iff w st j).mpr hc)]
    exact stateAt_setActState_self st j _ (stateAt_waiting_bound hc.1)
  · rw [if_neg hc]
    unfold cascadeBody
    rw [if_neg (fun hb => hc ((cascadeBody_cond_iff w st j).mp hb))]

theorem cascadeBody_pending_mem (w : String) (st : SyncState) (j j' : Nat)
    (hnd : st.pending_actions.Nodup) :
    j' ∈ (cascadeBody w st j).pending_actions ↔
      j' ∈ st.pending_actions ∧
        ¬(j' = j ∧ stateAt st j = AState.WAITING ∧ (actAt st j).pid = w) := by
  by_cases hc : stateAt st j = AState.WAITING ∧ (actAt st j).pid = w
  · unfold cascadeBody
    rw [if_pos ((cascadeBody_cond_iff w st j).mpr hc)]
    simp only [setActState]
    by_cases hj : j' = j
    · subst hj
      constructor
      · intro hmem
        exact absurd hmem (hnd.not_mem_erase)
      · intro hand
        exact absurd ⟨rfl, hc⟩ hand.2
    · constructor
      · intro hmem
        exact ⟨List.mem_of_mem_erase hmem, fun hx => hj hx.1⟩
      · intro hand
        exact (List.mem_erase_of_ne hj).mpr hand.1
  · unfold cascadeBody
    rw [if_neg (fun hb => hc ((cascadeBody_cond_iff w st j).mp hb))]
    constructor
    · intro hmem
      exact ⟨hmem, fun hx => hc hx.2⟩
    · intro hand
      exact hand.1

theorem cascadeBody_pending_nodup (w : String) (st : SyncState) (j : Nat)
    (hnd : st.pending_actions.Nodup) : (cascadeBody w st j).pending_actions.Nodup := by
  unfold cascadeBody
  split
  · exact hnd.erase j
  · exact hnd

theorem cascadeFold_acts (w : String) :
    ∀ (l : List Nat) (st : SyncState), (l.foldl (cascadeBody w) st).acts = st.acts := by
  intro l
  induction l with
  | nil => intro st; rfl
  | cons h rest ih =>
    intro st
    simp only [List.foldl_cons]
    rw [ih, cascadeBody_acts]

theorem cascadeFold_nodup (w : String) :
    ∀ (l : List Nat) (st : SyncState), st.pending_actions.Nodup →
      (l.foldl (cascadeBody w) st).pending_actions.Nodup := by
  intro l
  induction l with
  | nil => intro st h; exact h
  | cons hh rest ih =>
    intro st h
    simp only [List.foldl_cons]
    exact ih _ (cascadeBody_pending_nodup w st hh h)

theorem cascadeFold_state (w : String) :
    ∀ (l : List Nat) (st : SyncState) (j : Nat), l.Nodup →
      stateAt (l.foldl (cascadeBody w) st) j =
        if j ∈ l ∧ stateAt st j = AState.WAITING ∧ (actAt st j).pid = w
        then AState.COMPLETED else stateAt st j := by
  intro l
  induction l with
  | nil =>
    intro st j _
    rw [if_neg (by simp)]
    rfl
  | cons h rest ih =>
    intro st j hnd
    rcases List.nodup_cons.mp hnd with ⟨hh, hrest⟩
    simp only [List.foldl_cons]
    rw [ih _ j hrest, actAt_congr (cascadeBody_acts w st h) j]
    by_cases hjh : j = h
    · subst hjh
      rw [cascadeBody_state_self]
      by_cases hc : stateAt st j = AState.WAITING ∧ (actAt st j).pid = w
      · rw [if_pos hc, if_neg (fun hx => hh hx.1),
          if_pos ⟨List.mem_cons_self j rest, hc⟩]
      · rw [if_neg hc, if_neg (fun hx => hc hx.2), if_neg (fun hx => hc hx.2)]
    · rw [cascadeBody_state_other w st h j hjh]
      by_cases hc2 : j ∈ rest ∧ stateAt st j = AState.WAITING ∧ (actAt st j).pid = w
      · rw [if_pos hc2, if_pos ⟨List.mem_cons_of_mem h hc2.1, hc2.2⟩]
      · rw [if_neg hc2, if_neg]
        intro hx
        rcases List.mem_cons.mp hx.1 with heq | hmem2
        · exact hjh heq
        · exact hc2 ⟨hmem2, hx.2⟩

theorem cascadeFold_pending_mem (w : String) :
    ∀ (l : List Nat) (st : SyncState) (j : Nat), l.Nodup → st.pending_actions.Nodup →
      (j ∈ (l.foldl (cascadeBody w) st).pending_actions ↔
        j ∈ st.pending_actions ∧
          ¬(j ∈ l ∧ stateAt st j = AState.WAITING ∧ (actAt st j).pid = w)) := by
  intro l
  induction l with
  | nil =>
    intro st j _ _
    simp
  | cons h rest ih =>
    intro st j hnd hpnd
    rcases List.nodup_cons.mp hnd with ⟨hh, hrest⟩
    simp only [List.foldl_cons]
    rw [ih _ j hrest (cascadeBody_pending_nodup w st h hpnd),
        cascadeBody_pending_mem w st h j hpnd,
        actAt_congr (cascadeBody_acts w st h) j]
    by_cases hjh : j = h
    · subst hjh
      rw [cascadeBody_state_self]
      by_cases hc : stateAt st j = AState.WAITING ∧ (actAt st j).pid = w
      · rw [if_pos hc]
        constructor
        · intro hx
          exact absurd ⟨rfl, hc⟩ hx.1.2
        · intro hx
          exact absurd ⟨List.mem_cons_self j rest, hc⟩ hx.2
      · rw [if_neg hc]
        constructor
        · intro hx
          exact ⟨hx.1.1, fun hy => hc hy.2⟩
        · intro hx
          exact ⟨⟨hx.1, fun hy => hc hy.2⟩, fun hy => hc hy.2⟩
    · rw [cascadeBody_state_other w st h j hjh]
      constructor
      · intro hx
        refine ⟨hx.1.1, fun hy => ?_⟩
        rcases List.mem_cons.mp hy.1 with heq | hmem
        · exact hjh heq
        · exact hx.2 ⟨hmem, hy.2⟩
      · intro hx
        exact ⟨⟨hx.1, fun hy => hjh hy.1⟩, fun hy => hx.2 ⟨List.mem_cons_of_mem h hy.1, hy.2⟩⟩

theorem cascadeStep_acts (st : SyncState) (w : String) :
    (cascadeStep st w).acts = st.acts := cascadeFold_acts w _ st

theorem cascadeStep_nodup (st : SyncState) (w : String)
    (h : st.pending_actions.Nodup) : (cascadeStep st w).pending_actions.Nodup :=
  cascadeFold_nodup w _ st h

theorem cascadeStep_state (st : SyncState) (w : String) (j : Nat)
    (hnd : st.pending_actions.Nodup) :
    stateAt (cascadeStep st w) j =
      if j ∈ st.pending_actions ∧ stateAt st j = AState.WAITING ∧ (actAt st j).pid = w
      then AState.COMPLETED else stateAt st j :=
  cascadeFold_state w _ st j hnd

theorem cascadeStep_pending_mem (st : SyncState) (w : String) (j : Nat)
    (hnd : st.pending_actions.Nodup) :
    j ∈ (cascadeStep st w).pending_actions ↔
      j ∈ st.pending_actions ∧
        ¬(j ∈ st.pending_actions ∧ stateAt st j = AState.WAITING ∧ (actAt st j).pid = w) :=
  cascadeFold_pending_mem w _ st j hnd hnd

theorem cascade_state_nonwaiting :
    ∀ (rel : List String) (st : SyncState) (j : Nat), st.pending_actions.Nodup →
      stateAt st j ≠ AState.WAITING → stateAt (cascade st rel) j = stateAt st j := by
  intro rel
  induction rel with
  | nil => intro st j _ _; rfl
  | cons w ws ih =>
    intro st j hnd hw
    show stateAt (cascade (cascadeStep st w) ws) j = stateAt st j
    rw [ih _ j (cascadeStep_nodup st w hnd) (by rw [cascadeStep_state st w j hnd, if_neg (fun hx => hw hx.2.1)]; exact hw),
      cascadeStep_state st w j hnd, if_neg (fun hx => hw hx.2.1)]

theorem cascade_state :
    ∀ (rel : List String) (st : SyncState) (j : Nat), st.pending_actions.Nodup →
      j ∈ st.pending_actions →
      stateAt (cascade st rel) j =
        if stateAt st j = AState.WAITING ∧ (actAt st j).pid ∈ rel
        then AState.COMPLETED else stateAt st j := by
  intro rel
  induction rel with
  | nil =>
    intro st j _ _
    rw [if_neg (by simp)]
    rfl
  | cons w ws ih =>
    intro st j hnd hmem
    show stateAt (cascade (cascadeStep st w) ws) j = _
    by_cases hc : stateAt st j = AState.WAITING ∧ (actAt st j).pid = w
    · have hcomp : stateAt (cascadeStep st w) j = AState.COMPLETED := by
        rw [cascadeStep_state st w j hnd, if_pos ⟨hmem, hc⟩]
      rw [cascade_state_nonwaiting ws _ j (cascadeStep_nodup st w hnd)
        (by rw [hcomp]; intro hx; cases hx), hcomp,
        if_pos ⟨hc.1, List.mem_cons.mpr (Or.inl hc.2)⟩]
    · have hst : stateAt (cascadeStep st w) j = stateAt st j := by
        rw [cascadeStep_state st w j hnd, if_neg (fun hx => hc hx.2)]
      have hmem2 : j ∈ (cascadeStep st w).pending_actions := by
        rw [cascadeStep_pending_mem st w j hnd]
        exact ⟨hmem, fun hx => hc hx.2⟩
      rw [ih _ j (cascadeStep_nodup st w hnd) hmem2,
        actAt_congr (cascadeStep_acts st w) j, hst]
      by_cases hw : stateAt st j = AState.WAITING
      · by_cases hws : (actAt st j).pid ∈ ws
        · rw [if_pos ⟨hw, hws⟩, if_pos ⟨hw, List.mem_cons.mpr (Or.inr hws)⟩]
        · rw [if_neg (fun hx => hws hx.2), if_neg]
          intro hx
          rcases List.mem_cons.mp hx.2 with heq | hm
          · exact hc ⟨hw, heq⟩
          · exact hws hm
      · rw [if_neg (fun hx => hw hx.1), if_neg (fun hx => hw hx.1)]

theorem replaceRes_states (s : SyncState) (r : Resource) :
    (replaceRes s r).states = s.states := rfl

theorem replaceRes_pending (s : SyncState) (r : Resource) :
    (replaceRes s r).pending_actions = s.pending_actions := rfl

theorem replaceRes_acts (s : SyncState) (r : Resource) :
    (replaceRes s r).acts = s.acts := rfl

theorem setActState_pending (s : SyncState) (i : Nat) (st : AState) :
    (setActState s i st).pending_actions = s.pending_actions := rfl

/-- C4 amended: in the semaphore strategy, when an action is granted and its
process releases the resource, exactly those pending actions that were
WAITING and whose pid belongs to a process the release granted the resource
to are marked COMPLETED in the same cycle — the match is keyed on the pid
only, so a released process's WAITING actions on other resources are
completed as well; the states of all other pending actions are unchanged. -/
theorem semaphore_cascade_completes_by_pid :
    ∀ (s : SyncState) (i : Nat) (r : Resource),
      s.pending_actions.Nodup →
      findRes s (actAt s i).resource_name = some r →
      (actAt s i).pid ∈ s.processes →
      (r.is_available_for (actAt s i).action_type ||
        r.using_processes.any (fun kv => kv.1 == (actAt s i).pid)) = true →
      ∀ j ∈ s.pending_actions, j ≠ i →
        stateAt (semProcessAction s i).2 j =
          if stateAt s j = AState.WAITING ∧
              (actAt s j).pid ∈
                (grantStep r (actAt s i).pid (actAt s i).action_type).2
          then AState.COMPLETED else stateAt s j := by
  intro s i r hnd hf hmem hcond j hj hji
  simp only [semProcessAction, hf, if_pos hmem, if_pos hcond]
  have hpend : (replaceRes (setActState s i AState.COMPLETED)
      (grantStep r (actAt s i).pid (actAt s i).action_type).1).pending_actions =
      s.pending_actions := rfl
  rw [cascade_state _ _ j (by rw [hpend]; exact hnd) (by rw [hpend]; exact hj)]
  have hst : stateAt (replaceRes (setActState s i AState.COMPLETED)
      (grantStep r (actAt s i).pid (actAt s i).action_type).1) j = stateAt s j := by
    show stateAt (setActState s i AState.COMPLETED) j = stateAt s j
    exact stateAt_setActState_other s i j _ hji
  have hac : actAt (replaceRes (setActState s i AState.COMPLETED)
      (grantStep r (actAt s i).pid (actAt s i).action_type).1) j = actAt s j := rfl
  rw [hst, hac]

/-- C4 counterexample: in the concrete state `c4state`, processing P1's due
WRITE on R1 (which succeeds and releases R1, granting queued P2) marks P2's
WAITING action on the *other* resource R2 COMPLETED, even though R2 is
untouched by the release — its holder and queue are unchanged, so that
action never became satisfiable on R2.  This refutes the claim that only
actions that became satisfiable on the released resource are completed. -/
theorem semaphore_cascade_cross_resource_counterexample :
    stateAt (semProcessAction c4state 0).2 2 = AState.COMPLETED ∧
    stateAt c4state 2 = AState.WAITING ∧
    (actAt c4state 2).resource_name = "R2" ∧
    (actAt c4state 0).resource_name = "R1" ∧
    findRes (semProcessAction c4state 0).2 "R2" = findRes c4state "R2" := by
  refine ⟨by decide, by decide, by decide, by decide, by decide⟩

/-- C4 witness: the amended characterization applied to `c4state` with the
cross-resource action 2 — P2 is in the released list, so the action is
completed. -/
theorem semaphore_cascade_witness :
    stateAt (semProcessAction c4state 0).2 2 =
      if stateAt c4state 2 = AState.WAITING ∧
          (actAt c4state 2).pid ∈
            (grantStep c4resR1 (actAt c4state 0).pid (actAt c4state 0).action_type).2
      then AState.COMPLETED else stateAt c4state 2 :=
  semaphore_cascade_completes_by_pid c4state 0 c4resR1 (by decide) (by decide)
    (by decide) (by decide) 2 (by decide) (by decide)
